import Mathlib

/-!
Verification of the tool-invocation layer of the gemini-cli-cmod repository.

The definitions below are a shallow embedding of the TypeScript sources:

* `packages/core/src/tools/memoryTool.ts` — the fact-store (memory) tool:
  `parseMemories`, `formatMemories`, the `save` / `delete` / `update` /
  `fetch` actions of `MemoriesToolInvocation.execute`, its
  `getConfirmationDetails` and the process-wide confirmation allowlist.
* `packages/core/src/tools/write-file.ts` — `getCorrectedFileContent`
  (the content reconciler), `WriteFileToolInvocation.execute` (per-target
  line-ending handling and bulk aggregation), confirmation details and
  `WriteFileTool.validateToolParamValues`.
* the read tool — `ReadFileTool.validateToolParamValues` and the bulk
  aggregation of `ReadFileToolInvocation.execute`.
* the diff tool — `DiffToolInvocation.execute` / `diffFiles`.

Strings are modelled as `List Char` where the claims need character-level
reasoning (the memory file format, line endings) and as `String` elsewhere.
External collaborators (filesystem reads, the LLM-assisted correctors, the
diff primitive, path resolution, the access policy) are modelled as explicit
function parameters: the embedded code is a pure function of its inputs and
of those collaborators.
-/

namespace GeminiCli

/-- Characters of a string literal, the `List Char` view used throughout. -/
def str (s : String) : List Char := s.data

/-- Whitespace test covering the characters this code base can meet
(space, tab, LF, CR, vertical tab, form feed).  It embeds both the
JavaScript regex class backslash-s and the character set trimmed by
`String.prototype.trim` for the inputs relevant here. -/
def isJsWs (c : Char) : Bool :=
  c = ' ' || c = '\t' || c = '\n' || c = '\r' || c = '\x0b' || c = '\x0c'

/-- Leading-whitespace removal, one half of `String.prototype.trim`. -/
def trimLeft (l : List Char) : List Char := l.dropWhile isJsWs

/-- Trailing-whitespace removal, the other half of `String.prototype.trim`. -/
def trimRight (l : List Char) : List Char := (l.reverse.dropWhile isJsWs).reverse

/-- `String.prototype.trim`. -/
def trim (l : List Char) : List Char := trimRight (trimLeft l)

/-- Numeric value of a decimal digit character. -/
def digitVal (c : Char) : Nat := c.toNat - 48

/-- Value of a string of decimal digits, as computed by
`parseInt(s, 10)` on an all-digit string. -/
def parseDigits (l : List Char) : Nat := l.foldl (fun a c => a * 10 + digitVal c) 0

/-- Fuel-driven decimal printer; with fuel above `n` it renders `n` in
base ten, most significant digit first. -/
def formatNatAux : Nat → Nat → List Char
  | 0, _ => []
  | fuel + 1, n =>
    if n < 10 then [Nat.digitChar n]
    else formatNatAux fuel (n / 10) ++ [Nat.digitChar (n % 10)]

/-- Decimal rendering of a natural number, the embedding of the
template-literal interpolation of a JavaScript integer. -/
def formatNat (n : Nat) : List Char := formatNatAux (n + 1) n

/-- One fact-store record, `{id: number, fact: string}` in
`memoryTool.ts`. -/
structure Memory where
  id : Nat
  fact : List Char
deriving DecidableEq, Repr

/-- `MEMORY_SECTION_HEADER` of `memoryTool.ts`. -/
def MEMORY_SECTION_HEADER : List Char := str "# Memories"

/-- The line `formatMemories` produces for one record. -/
def formatMemoryLine (m : Memory) : List Char :=
  str "- [ID: " ++ formatNat m.id ++ str "] " ++ m.fact

/-- `formatMemories` of `memoryTool.ts`: header line, blank line, then one
record line per memory, each terminated by a newline. -/
def formatMemories (ms : List Memory) : List Char :=
  MEMORY_SECTION_HEADER ++ str "\n\n" ++ (ms.map (fun m => formatMemoryLine m ++ ['\n'])).flatten

/-- Accumulator form of splitting on the newline character. -/
def splitNlAux : List Char → List Char → List (List Char)
  | [], acc => [acc.reverse]
  | c :: cs, acc =>
    if c = '\n' then acc.reverse :: splitNlAux cs []
    else splitNlAux cs (c :: acc)

/-- `content.split("\n")` of JavaScript. -/
def splitNl (l : List Char) : List (List Char) := splitNlAux l []

/-- The per-line regex match of `parseMemories`.  The source regex is
anchored `-` then whitespace, the literal `[ID:`, whitespace, one or more
digits, `]`, whitespace, then a final group matched by dot-star.  A
JavaScript dot does not match a carriage return, so a line whose text
after the bracket contains one fails to match and is dropped; the branch
returning `none` on a carriage return in `core` embeds that.  The fact is
the final group trimmed, which equals the whole tail after the bracket
trimmed. -/
def matchMemoryLine (t : List Char) : Option Memory :=
  match t with
  | '-' :: r0 =>
    match r0.dropWhile isJsWs with
    | '[' :: 'I' :: 'D' :: ':' :: r1 =>
      let r2 := r1.dropWhile isJsWs
      match r2.takeWhile Char.isDigit, r2.dropWhile Char.isDigit with
      | [], _ => none
      | d :: ds, ']' :: r3 =>
        let core := r3.dropWhile isJsWs
        if core.contains '\r' then none
        else some ⟨parseDigits (d :: ds), trim core⟩
      | _, _ => none
    | _ => none
  | _ => none

/-- `parseMemories` of `memoryTool.ts`: split on newlines, trim each line,
keep the lines matching the record regex. -/
def parseMemories (content : List Char) : List Memory :=
  (splitNl content).filterMap (fun line => matchMemoryLine (trim line))

/-- The fact normalisation applied on save and update:
`fact.replace(/[\r\n]/g, " ").trim()`. -/
def normalizeFact (fact : List Char) : List Char :=
  trim (fact.map (fun c => if c = '\r' || c = '\n' then ' ' else c))

/-- The id chosen for a new record:
`memories.length > 0 ? Math.max(...memories.map((m) => m.id)) + 1 : 1`. -/
def nextMemoryId (ms : List Memory) : Nat :=
  if ms.isEmpty then 1 else (ms.map (fun m => m.id)).foldl Nat.max 0 + 1

/-- The updated record list built by the `save` action. -/
def saveMemories (ms : List Memory) (fact : List Char) : List Memory :=
  ms ++ [⟨nextMemoryId ms, normalizeFact fact⟩]

/-- The updated record list built by the `delete` action:
`memories.filter((m) => m.id !== targetId)`. -/
def deleteMemories (ms : List Memory) (targetId : Nat) : List Memory :=
  ms.filter (fun m => m.id != targetId)

/-- The updated record list built by the `update` action: map over the
records, replacing the fact of the record whose id matches. -/
def updateMemories (ms : List Memory) (targetId : Nat) (fact : List Char) : List Memory :=
  ms.map (fun m => if m.id = targetId then { m with fact := normalizeFact fact } else m)

/-- The action field of `MemoriesParams`. -/
inductive MemAction where
  | save
  | delete
  | update
  | fetch
deriving DecidableEq, Repr

/-- `MemoriesParams` of `memoryTool.ts`.  The source carries `id` as a
decimal string later passed through `parseInt(id, 10)`; it is embedded
here already parsed, as an optional natural number.  An absent optional
string and an empty one are both falsy in the source conditions, so an
empty `fact` is embedded as relevant only through `memTruthy`. -/
structure MemoriesParams where
  action : MemAction
  fact : Option (List Char) := none
  id : Option Nat := none
  modified_by_user : Bool := false
  modified_content : Option (List Char) := none

/-- JavaScript truthiness of an optional string: present and non-empty. -/
def memTruthy : Option (List Char) → Bool
  | some l => !l.isEmpty
  | none => false

/-- `ToolConfirmationOutcome` of `tools.ts`. -/
inductive ToolConfirmationOutcome where
  | proceed
  | proceedAlways
  | cancel
  | modifyThenProceed
deriving DecidableEq, Repr

/-- Which message `MemoriesToolInvocation.execute` produces.  The exact
source text of each message is immaterial to the claims; each constructor
stands for one distinct template literal of the source. -/
inductive MemMessage where
  | fetched (m : Memory)
  | fetchNotFound (id : Nat)
  | fetchMissingId
  | savedWithId (id : Nat)
  | deleted (id : Nat)
  | updated (id : Nat)
  | updateNotFound (id : Nat)
  | userModified
  | actionSuccessful (a : MemAction)
  | invalidParams (a : MemAction)
deriving DecidableEq, Repr

/-- The observable outcome of `MemoriesToolInvocation.execute`:
whether the returned `ToolResult` carries an `error` field, the content
written to the memory file (if any write happened), and which message was
produced. -/
structure MemExecResult where
  isError : Bool
  written : Option (List Char)
  message : MemMessage
deriving DecidableEq, Repr

/-- `MemoriesToolInvocation.execute`, after the memory file content has
been read and parsed into `memories`.  `proposedNewContent` is the
invocation field of the same name, set when `getConfirmationDetails` ran
earlier on the same invocation.  A thrown `Error` is caught by the
surrounding try/catch and returned as an error result, embedded as
`isError := true` with no write. -/
def executeMemoriesCore (p : MemoriesParams) (proposedNewContent : Option (List Char))
    (memories : List Memory) : MemExecResult :=
  match p.action with
  | .fetch =>
    match p.id with
    | none => ⟨true, none, .fetchMissingId⟩
    | some i =>
      match memories.find? (fun m => m.id == i) with
      | none => ⟨false, none, .fetchNotFound i⟩
      | some m => ⟨false, none, .fetched m⟩
  | a =>
    if p.modified_by_user && p.modified_content.isSome then
      ⟨false, p.modified_content, .userModified⟩
    else
      match proposedNewContent with
      | some c => ⟨false, some c, .actionSuccessful a⟩
      | none =>
        match a, p.id, p.fact with
        | .save, _, some f =>
          if f.isEmpty then ⟨true, none, .invalidParams .save⟩
          else ⟨false, some (formatMemories (saveMemories memories f)), .savedWithId (nextMemoryId memories)⟩
        | .delete, some i, _ =>
          ⟨false, some (formatMemories (deleteMemories memories i)), .deleted i⟩
        | .update, some i, some f =>
          if f.isEmpty then ⟨true, none, .invalidParams .update⟩
          else if memories.any (fun m => m.id == i) then
            ⟨false, some (formatMemories (updateMemories memories i f)), .updated i⟩
          else ⟨true, none, .updateNotFound i⟩
        | a, _, _ => ⟨true, none, .invalidParams a⟩

/-- `MemoriesToolInvocation.execute` from the raw current file content. -/
def executeMemories (p : MemoriesParams) (proposedNewContent : Option (List Char))
    (currentContent : List Char) : MemExecResult :=
  executeMemoriesCore p proposedNewContent (parseMemories currentContent)

/-- `MemoriesToolInvocation.getConfirmationDetails`: returns `none` when
no prompt is shown (`fetch`, an allowlisted `(action, path)` key, or
invalid parameters) and otherwise the proposed new content that the edit
confirmation carries and that is stored into `proposedNewContent`.  The
allowlist key is the string `action + ":" + memoryFilePath`, embedded as
the pair. -/
def memGetConfirmationDetails (p : MemoriesParams)
    (allowlist : List (MemAction × String)) (memPath : String)
    (currentContent : List Char) : Option (List Char) :=
  if p.action = .fetch then none
  else if allowlist.contains (p.action, memPath) then none
  else
    let memories := parseMemories currentContent
    match p.action, p.id, p.fact with
    | .save, _, some f =>
      if f.isEmpty then none
      else some (formatMemories (saveMemories memories f))
    | .delete, some i, _ =>
      some (formatMemories (deleteMemories memories i))
    | .update, some i, some f =>
      if f.isEmpty then none
      else some (formatMemories (updateMemories memories i f))
    | _, _, _ => none

/-- The `onConfirm` callback of the memory tool's confirmation details:
on `ProceedAlways` the allowlist key is inserted, otherwise the allowlist
is untouched. -/
def memOnConfirm (outcome : ToolConfirmationOutcome) (action : MemAction)
    (memPath : String) (allowlist : List (MemAction × String)) :
    List (MemAction × String) :=
  if outcome = .proceedAlways then (action, memPath) :: allowlist else allowlist

/-- Outcome of one `readTextFile` call of the filesystem service:
success with the content, a not-found failure (Node error code ENOENT),
or any other failure with its message. -/
inductive ReadOutcome where
  | ok (content : String)
  | enoent
  | failure (message : String)

/-- `GetCorrectedFileContentResult` of `write-file.ts`. -/
structure GetCorrectedFileContentResult where
  originalContent : String
  correctedContent : String
  fileExists : Bool
  error : Option String
deriving DecidableEq, Repr

/-- `getCorrectedFileContent` of `write-file.ts`.  The two LLM-assisted
correctors are external collaborators and enter as function parameters:
`ensureCorrectEdit old proposed` yields the corrected `new_string` when
the file exists (the whole current content is passed as the old side),
`ensureCorrectFileContent proposed` the corrected content of a new file.
On a read failure other than not-found the function returns early: no
corrector is invoked and the proposed content is passed through. -/
def getCorrectedFileContent (readResult : ReadOutcome) (proposedContent : String)
    (ensureCorrectEdit : String → String → String)
    (ensureCorrectFileContent : String → String) : GetCorrectedFileContentResult :=
  match readResult with
  | .enoent =>
    { originalContent := "", correctedContent := ensureCorrectFileContent proposedContent,
      fileExists := false, error := none }
  | .failure msg =>
    { originalContent := "", correctedContent := proposedContent,
      fileExists := true, error := some msg }
  | .ok originalContent =>
    { originalContent, correctedContent := ensureCorrectEdit originalContent proposedContent,
      fileExists := true, error := none }

/-- A snapshot of the filesystem as the reconciler sees it: what reading
any path yields. -/
structure FileSystemState where
  read : String → ReadOutcome

/-- The reconciler run against a filesystem snapshot.  The second
component of the result is the filesystem after the call; the source
function only reads, so the state passes through untouched. -/
def getCorrectedFileContentFS (fs : FileSystemState) (filePath : String)
    (proposedContent : String) (ensureCorrectEdit : String → String → String)
    (ensureCorrectFileContent : String → String) :
    GetCorrectedFileContentResult × FileSystemState :=
  (getCorrectedFileContent (fs.read filePath) proposedContent
    ensureCorrectEdit ensureCorrectFileContent, fs)

/-- The two line endings the write path distinguishes. -/
inductive LineEnding where
  | lf
  | crlf
deriving DecidableEq, Repr

/-- Number of CRLF pairs and of lone LF characters in a text. -/
def lineEndingCounts : List Char → Nat × Nat
  | '\r' :: '\n' :: rest =>
    let c := lineEndingCounts rest
    (c.1 + 1, c.2)
  | '\n' :: rest =>
    let c := lineEndingCounts rest
    (c.1, c.2 + 1)
  | _ :: rest => lineEndingCounts rest
  | [] => (0, 0)

/-- Modelled from the spec: `detectLineEnding` lives in
`packages/core/src/utils/textUtils.ts`, which is not among the provided
sources.  Per the spec it detects the dominant line ending of the
pre-existing content; embedded as CRLF when strictly more CRLF pairs than
lone LF characters occur, LF otherwise. -/
def detectLineEnding (content : List Char) : LineEnding :=
  let c := lineEndingCounts content
  if c.2 < c.1 then .crlf else .lf

/-- `finalContent.replace(/\r?\n/g, "\r\n")`: every LF, with or without a
preceding CR, becomes a CRLF pair; a CR not followed by LF is left
alone. -/
def toCRLF : List Char → List Char
  | '\r' :: '\n' :: rest => '\r' :: '\n' :: toCRLF rest
  | '\n' :: rest => '\r' :: '\n' :: toCRLF rest
  | c :: rest => c :: toCRLF rest
  | [] => []

/-- Every line break of the text is a CRLF pair: no lone LF and no lone
CR occurs. -/
def crlfOnly : List Char → Bool
  | '\r' :: '\n' :: rest => crlfOnly rest
  | '\r' :: _ => false
  | '\n' :: _ => false
  | _ :: rest => crlfOnly rest
  | [] => true

/-- Every line break of the text is a bare LF: no CRLF pair occurs. -/
def lfOnly : List Char → Bool
  | '\r' :: '\n' :: _ => false
  | _ :: rest => lfOnly rest
  | [] => true

/-- The line-ending step of `WriteFileToolInvocation.execute`: choose
CRLF when the target pre-existed with non-empty content whose detected
ending is CRLF, or — for a new or empty file — when the host end-of-line
marker (`os.EOL`) is CRLF; in the CRLF case normalise the content, in
the LF case write it unchanged. -/
def writeFinalContent (isNewFile : Bool) (originalContent : List Char)
    (osEolIsCRLF : Bool) (fileContent : List Char) : List Char :=
  let useCRLF :=
    if !isNewFile && !originalContent.isEmpty then detectLineEnding originalContent == .crlf
    else osEolIsCRLF
  if useCRLF then toCRLF fileContent else fileContent

/-- `{llmContent, returnDisplay}`, the result shape shared by the write,
read and diff tools. -/
structure ToolResultS where
  llmContent : String
  returnDisplay : String
deriving DecidableEq, Repr

/-- One entry of the `files` batch array of the write tool. -/
structure WriteFileEntry where
  file_path : String
  content : String
deriving DecidableEq, Repr

/-- `WriteFileToolParams` of `write-file.ts`. -/
structure WriteFileToolParams where
  file_path : Option String := none
  content : Option String := none
  files : Option (List WriteFileEntry) := none
  modified_by_user : Bool := false
  ai_proposed_content : Option String := none
deriving DecidableEq, Repr

/-- The per-target outcome inside `WriteFileToolInvocation.execute`: the
object each element of `writePromises` resolves to either carries an
`llmContent` payload or an `error` string, always together with the
target's `file_path`. -/
inductive WriteTargetOutcome where
  | ok (file_path : String) (llmContent : String)
  | err (file_path : String) (error : String)
deriving DecidableEq, Repr

/-- Whether the per-target object carries the `error` key. -/
def isWriteErr : WriteTargetOutcome → Bool
  | .err _ _ => true
  | .ok _ _ => false

/-- The `llmContent` payload of a successful per-target result. -/
def writeOkContent : WriteTargetOutcome → String
  | .ok _ c => c
  | .err _ _ => ""

/-- The `path: reason` error line of a failed per-target result. -/
def writeErrLine : WriteTargetOutcome → String
  | .err p e => p ++ ": " ++ e
  | .ok _ _ => ""

/-- The aggregation tail of `WriteFileToolInvocation.execute`: partition
the per-target results, join the successes' contents with newlines in
input order, append a trailing `Errors:` block when any target failed,
and report `Wrote N file(s).` when at least one target succeeded, else
`Failed to write files.`. -/
def writeAggregate (results : List WriteTargetOutcome) : ToolResultS :=
  let successful := results.filter (fun r => !isWriteErr r)
  let failed := results.filter isWriteErr
  let base := String.intercalate "\n" (successful.map writeOkContent)
  let llmContent :=
    if failed.length > 0 then
      base ++ "\nErrors:\n" ++ String.intercalate "\n" (failed.map writeErrLine)
    else base
  { llmContent,
    returnDisplay :=
      if successful.length > 0 then "Wrote " ++ toString successful.length ++ " file(s)."
      else "Failed to write files." }

/-- The list of targets `WriteFileToolInvocation.execute` operates on:
the batch array when present (an empty batch stays empty, since an empty
JavaScript array is truthy), otherwise the single-target fields. -/
def writeFilesToWrite (p : WriteFileToolParams) : List WriteFileEntry :=
  match p.files with
  | some fs => fs
  | none => [{ file_path := p.file_path.getD "", content := p.content.getD "" }]

/-- `WriteFileToolInvocation.execute` with the per-target work (path
resolution, access check, reconciliation, directory creation, the actual
write and telemetry) abstracted into `perTarget`: the targets are fanned
out, every target yields exactly one outcome, and the outcomes are
aggregated. -/
def writeExecute (p : WriteFileToolParams)
    (perTarget : WriteFileEntry → WriteTargetOutcome) : ToolResultS :=
  writeAggregate ((writeFilesToWrite p).map perTarget)

/-- The per-target outcome inside `ReadFileToolInvocation.execute`. -/
inductive ReadTargetOutcome where
  | ok (file_path : String) (content : String)
  | err (file_path : String) (error : String)
deriving DecidableEq, Repr

/-- Whether the per-target read object carries the `error` key. -/
def isReadErr : ReadTargetOutcome → Bool
  | .err _ _ => true
  | .ok _ _ => false

/-- The `content` payload of a successful per-target read. -/
def readOkContent : ReadTargetOutcome → String
  | .ok _ c => c
  | .err _ _ => ""

/-- The `path: reason` error line of a failed per-target read. -/
def readErrLine : ReadTargetOutcome → String
  | .err p e => p ++ ": " ++ e
  | .ok _ _ => ""

/-- The aggregation tail of `ReadFileToolInvocation.execute`: same
partition-and-join shape as the write tool, with an
`Errors encountered:` block and a `Read N file(s).` display. -/
def readAggregate (results : List ReadTargetOutcome) : ToolResultS :=
  let successfulReads := results.filter (fun r => !isReadErr r)
  let failedReads := results.filter isReadErr
  let base := String.intercalate "\n" (successfulReads.map readOkContent)
  let llmContent :=
    if failedReads.length > 0 then
      base ++ "\n\nErrors encountered:\n" ++ String.intercalate "\n" (failedReads.map readErrLine)
    else base
  { llmContent,
    returnDisplay :=
      if successfulReads.length > 0 then "Read " ++ toString successfulReads.length ++ " file(s)."
      else "Failed to read files." }

/-- One entry of the `files` batch array of the read tool; line bounds
are JavaScript numbers, embedded as integers. -/
structure ReadTargetSpec where
  file_path : String
  start_line : Option Int := none
  end_line : Option Int := none
deriving DecidableEq, Repr

/-- `ReadFileToolParams` of the read tool source. -/
structure ReadFileToolParams where
  file_path : Option String := none
  start_line : Option Int := none
  end_line : Option Int := none
  files : Option (List ReadTargetSpec) := none
deriving DecidableEq, Repr

/-- The list of targets `ReadFileToolInvocation.execute` operates on,
mirroring `writeFilesToWrite`. -/
def readFilesToRead (p : ReadFileToolParams) : List ReadTargetSpec :=
  match p.files with
  | some fs => fs
  | none => [{ file_path := p.file_path.getD "",
               start_line := p.start_line, end_line := p.end_line }]

/-- `ReadFileToolInvocation.execute` with the per-target work (access
check, `processSingleFileContent`, truncation framing, telemetry)
abstracted into `perTarget`, mirroring `writeExecute`. -/
def readExecute (p : ReadFileToolParams)
    (perTarget : ReadTargetSpec → ReadTargetOutcome) : ToolResultS :=
  readAggregate ((readFilesToRead p).map perTarget)

/-- Outcome of the `fs.existsSync` / `fs.lstatSync` probe inside
`WriteFileTool.validateToolParamValues`. -/
inductive StatProbe where
  | notExists
  | isFile
  | isDir
  | statError (message : String)

/-- One entry of the list `WriteFileTool.validateToolParamValues`
iterates over; the single-target fallback entry may lack either field. -/
structure WriteValidateEntry where
  file_path : Option String
  content : Option String

/-- `params.files || [{file_path: params.file_path, content:
params.content}]` as seen by the write validator. -/
def writeFilesToValidate (p : WriteFileToolParams) : List WriteValidateEntry :=
  match p.files with
  | some fs => fs.map (fun f => ⟨some f.file_path, some f.content⟩)
  | none => [⟨p.file_path, p.content⟩]

/-- The checks `WriteFileTool.validateToolParamValues` runs on one entry:
missing or blank path, the access policy, a stat probe rejecting
directories (and surfacing probe failures), and — for truthy content —
the omission-placeholder detector.  `resolve`, `validatePathAccess`,
`stat` and `hasOmissionPlaceholders` are collaborators passed in as
functions. -/
def writeValidateEntry (resolve : String → String)
    (validatePathAccess : String → Option String) (stat : String → StatProbe)
    (hasOmissionPlaceholders : String → Bool) (f : WriteValidateEntry) :
    Option String :=
  match f.file_path with
  | none => some "Missing or empty \"file_path\""
  | some fp =>
    if trim (str fp) = [] then some "Missing or empty \"file_path\""
    else
      let resolvedPath := resolve fp
      match validatePathAccess resolvedPath with
      | some e => some e
      | none =>
        match stat resolvedPath with
        | .statError msg =>
          some ("Error accessing path: " ++ resolvedPath ++ ". Reason: " ++ msg)
        | .isDir => some ("Path is a directory, not a file: " ++ resolvedPath)
        | _ =>
          match f.content with
          | some c =>
            if c != "" && hasOmissionPlaceholders c then
              some ("Content for " ++ fp ++ " contains omission placeholders. Provide complete file content.")
            else none
          | none => none

/-- The validation loop: first failing entry wins, an empty list passes. -/
def writeValidateList (resolve : String → String)
    (validatePathAccess : String → Option String) (stat : String → StatProbe)
    (hasOmissionPlaceholders : String → Bool) :
    List WriteValidateEntry → Option String
  | [] => none
  | f :: rest =>
    match writeValidateEntry resolve validatePathAccess stat hasOmissionPlaceholders f with
    | some e => some e
    | none => writeValidateList resolve validatePathAccess stat hasOmissionPlaceholders rest

/-- `WriteFileTool.validateToolParamValues`. -/
def writeValidateToolParamValues (resolve : String → String)
    (validatePathAccess : String → Option String) (stat : String → StatProbe)
    (hasOmissionPlaceholders : String → Bool) (p : WriteFileToolParams) :
    Option String :=
  writeValidateList resolve validatePathAccess stat hasOmissionPlaceholders
    (writeFilesToValidate p)

/-- One entry of the list `ReadFileTool.validateToolParamValues` iterates
over; the single-target fallback entry may lack the path. -/
structure ReadValidateEntry where
  file_path : Option String
  start_line : Option Int := none
  end_line : Option Int := none

/-- `params.files || [{file_path, start_line, end_line}]` as seen by the
read validator. -/
def readFilesToValidate (p : ReadFileToolParams) : List ReadValidateEntry :=
  match p.files with
  | some fs => fs.map (fun f => ⟨some f.file_path, f.start_line, f.end_line⟩)
  | none => [⟨p.file_path, p.start_line, p.end_line⟩]

/-- The checks `ReadFileTool.validateToolParamValues` runs on one entry,
in source order: missing or blank path, the access policy, the three
line-range checks, then the ignore-pattern check.  No collaborator here
reads file contents: the validator consults only the parameters, the
path resolver, the access policy and the ignore predicate. -/
def readValidateEntry (resolve : String → String)
    (validatePathAccess : String → Option String)
    (shouldIgnoreFile : String → Bool) (f : ReadValidateEntry) : Option String :=
  match f.file_path with
  | none => some "The file_path parameter must be non-empty."
  | some fp =>
    if trim (str fp) = [] then some "The file_path parameter must be non-empty."
    else
      let resolvedPath := resolve fp
      match validatePathAccess resolvedPath with
      | some e => some e
      | none =>
        if (f.start_line.map (fun s => decide (s < 1))).getD false then
          some ("start_line for " ++ fp ++ " must be at least 1")
        else if (f.end_line.map (fun e => decide (e < 1))).getD false then
          some ("end_line for " ++ fp ++ " must be at least 1")
        else if (match f.start_line, f.end_line with
                 | some s, some e => decide (s > e)
                 | _, _ => false) then
          some ("start_line cannot be greater than end_line for " ++ fp)
        else if shouldIgnoreFile resolvedPath then
          some ("File path " ++ resolvedPath ++ " is ignored by configured ignore patterns.")
        else none

/-- The read validation loop: first failing entry wins. -/
def readValidateList (resolve : String → String)
    (validatePathAccess : String → Option String)
    (shouldIgnoreFile : String → Bool) : List ReadValidateEntry → Option String
  | [] => none
  | f :: rest =>
    match readValidateEntry resolve validatePathAccess shouldIgnoreFile f with
    | some e => some e
    | none => readValidateList resolve validatePathAccess shouldIgnoreFile rest

/-- `ReadFileTool.validateToolParamValues`. -/
def readValidateToolParamValues (resolve : String → String)
    (validatePathAccess : String → Option String)
    (shouldIgnoreFile : String → Bool) (p : ReadFileToolParams) : Option String :=
  readValidateList resolve validatePathAccess shouldIgnoreFile (readFilesToValidate p)

/-- The approval modes the write tool's confirmation path consults; only
the comparison against `AUTO_EDIT` occurs in the embedded code. -/
inductive ApprovalMode where
  | DEFAULT
  | AUTO_EDIT
  | YOLO
deriving DecidableEq, Repr

/-- What `WriteFileToolInvocation.getConfirmationDetails` resolves to:
`noConfirm` embeds the source returning `false` (no prompt), `info` the
bulk-mode simple prompt, `edit` the rich diff confirmation. -/
inductive WriteConfirmDecision where
  | noConfirm
  | info (prompt : String)
  | edit (fileDiff : String) (originalContent : String) (newContent : String)
deriving DecidableEq, Repr

/-- `WriteFileToolInvocation.getConfirmationDetails`: auto-edit mode
skips the prompt, a non-empty batch degrades to a count-naming info
prompt, a reconciliation error yields no prompt, and otherwise an edit
prompt carries the diff (built by the external diff primitive
`createPatch`, a collaborator parameter) between original and corrected
content.  No allowlist is consulted anywhere on this path. -/
def writeGetConfirmationDetails (mode : ApprovalMode)
    (createPatch : String → String → String) (p : WriteFileToolParams)
    (reconciled : GetCorrectedFileContentResult) : WriteConfirmDecision :=
  if mode = .AUTO_EDIT then .noConfirm
  else if (p.files.map (fun fs => decide (fs.length > 0))).getD false then
    .info ("Write " ++ toString ((p.files.getD []).length) ++ " files in parallel?")
  else if reconciled.error.isSome then .noConfirm
  else
    .edit (createPatch reconciled.originalContent reconciled.correctedContent)
      reconciled.originalContent reconciled.correctedContent

/-- The `onConfirm` callback of the write tool's edit confirmation: the
outcome value is ignored — in particular `ProceedAlways` records nothing
anywhere — and the only effect is that an accepted IDE-side edit replaces
the invocation's proposed content. -/
def writeOnConfirm (_outcome : ToolConfirmationOutcome)
    (ideAcceptedContent : Option String) (p : WriteFileToolParams) :
    WriteFileToolParams :=
  match ideAcceptedContent with
  | some newContent => { p with content := some newContent }
  | none => p

/-- Outcome of one `fs.stat` call inside `DiffToolInvocation.execute`: a
directory, a regular file, some other node kind, or a thrown error with
its message. -/
inductive DiffStat where
  | file
  | directory
  | other
  | statError (message : String)

/-- `DiffToolInvocation.diffFiles`: the unified patch is produced by the
external diff primitive (`createTwoFilesPatch`, a collaborator
parameter), but identical contents short-circuit to the literal
`Files are identical.` result. -/
def diffFiles (path1 path2 : String) (content1 content2 : String)
    (createTwoFilesPatch : String → String → String → String → String) :
    ToolResultS :=
  let patch := createTwoFilesPatch path1 path2 content1 content2
  if content1 = content2 then
    { llmContent := "Files are identical.", returnDisplay := "Files are identical." }
  else
    { llmContent := patch,
      returnDisplay := "Diff produced for " ++ path1 ++ " vs " ++ path2 }

/-- `DiffToolInvocation.execute`: stat both paths (a thrown stat error is
caught and reported), recurse into the directory comparison when both are
directories (that branch is abstracted as `dirResult` here), diff the
contents when both are files, and otherwise report a type mismatch as an
ordinary result — the mismatch arm builds a return value, it throws
nothing. -/
def diffExecute (stat1 stat2 : DiffStat) (path1 path2 : String)
    (content1 content2 : String)
    (createTwoFilesPatch : String → String → String → String → String)
    (dirResult : ToolResultS) : ToolResultS :=
  match stat1 with
  | .statError msg =>
    { llmContent := "Error: " ++ msg, returnDisplay := "Diff Error: " ++ msg }
  | _ =>
    match stat2 with
    | .statError msg =>
      { llmContent := "Error: " ++ msg, returnDisplay := "Diff Error: " ++ msg }
    | _ =>
      match stat1, stat2 with
      | .directory, .directory => dirResult
      | .file, .file => diffFiles path1 path2 content1 content2 createTwoFilesPatch
      | _, _ =>
        { llmContent := "Error: Cannot compare a file with a directory.",
          returnDisplay := "Diff Error: Type mismatch" }

/-! ## Shared helper lemmas -/

theorem filter_partition_lengths {α : Type} (p : α → Bool) (l : List α) :
    (l.filter p).length + (l.filter (fun a => !p a)).length = l.length ∧
    (l.filter p).length = l.countP p := by
  induction l with
  | nil => simp
  | cons a t ih =>
    by_cases h : p a <;> simp [List.filter_cons, List.countP_cons, h] <;> omega

theorem wrote_ne_failed (a b : String) :
    ("Wrote " ++ a ++ b) ≠ "Failed to write files." := by
  intro h
  have h2 := congrArg String.data h
  rw [String.data_append, String.data_append] at h2
  have hW : ("Wrote ").data = ['W', 'r', 'o', 't', 'e', ' '] := rfl
  rw [hW] at h2
  simp at h2

theorem read_ne_failed (a b : String) :
    ("Read " ++ a ++ b) ≠ "Failed to read files." := by
  intro h
  have h2 := congrArg String.data h
  rw [String.data_append, String.data_append] at h2
  have hR : ("Read ").data = ['R', 'e', 'a', 'd', ' '] := rfl
  rw [hR] at h2
  simp at h2

/-! ## C5 — the content reconciler on read failures -/

/-- C5: when the read of the target fails with not-found the reconciler
reports `fileExists = false`, empty original content and no error; when
the read fails for any other reason the result carries that error with
`fileExists = true` and no corrector is invoked (the proposed content
passes through unchanged whatever the correctors are); and the reconciler
leaves the filesystem untouched. -/
theorem C5_reconciler_read_failures :
    (∀ (proposed : String) (cE : String → String → String) (cN : String → String),
      getCorrectedFileContent .enoent proposed cE cN
        = { originalContent := "", correctedContent := cN proposed,
            fileExists := false, error := none }) ∧
    (∀ (msg proposed : String) (cE : String → String → String) (cN : String → String),
      getCorrectedFileContent (.failure msg) proposed cE cN
        = { originalContent := "", correctedContent := proposed,
            fileExists := true, error := some msg }) ∧
    (∀ (fs : FileSystemState) (filePath proposed : String)
      (cE : String → String → String) (cN : String → String),
      (getCorrectedFileContentFS fs filePath proposed cE cN).2 = fs) :=
  ⟨fun _ _ _ => rfl, fun _ _ _ _ => rfl, fun _ _ _ _ _ => rfl⟩

/-! ## C9 — the diff tool on identical files and on kind mismatch -/

/-- C9: identical contents short-circuit the file diff to the exact
model-facing string `Files are identical.` (through `diffFiles` and
through the full `execute` path), and comparing a file with a directory
yields the reported type-mismatch result value in either order — the
mismatch arm returns, it does not throw. -/
theorem C9_diff_identical_and_mismatch :
    (∀ (p1 p2 c : String) (patchFn : String → String → String → String → String),
      diffFiles p1 p2 c c patchFn
        = { llmContent := "Files are identical.",
            returnDisplay := "Files are identical." }) ∧
    (∀ (p1 p2 c : String) (patchFn : String → String → String → String → String)
      (dirResult : ToolResultS),
      diffExecute .file .file p1 p2 c c patchFn dirResult
        = { llmContent := "Files are identical.",
            returnDisplay := "Files are identical." }) ∧
    (∀ (p1 p2 c1 c2 : String) (patchFn : String → String → String → String → String)
      (dirResult : ToolResultS),
      diffExecute .file .directory p1 p2 c1 c2 patchFn dirResult
        = { llmContent := "Error: Cannot compare a file with a directory.",
            returnDisplay := "Diff Error: Type mismatch" } ∧
      diffExecute .directory .file p1 p2 c1 c2 patchFn dirResult
        = { llmContent := "Error: Cannot compare a file with a directory.",
            returnDisplay := "Diff Error: Type mismatch" }) := by
  refine ⟨fun p1 p2 c patchFn => ?_, fun p1 p2 c patchFn dirResult => ?_,
    fun p1 p2 c1 c2 patchFn dirResult => ⟨rfl, rfl⟩⟩ <;>
    simp [diffFiles, diffExecute]

/-! ## C10 — the write tool on an empty batch -/

/-- C10: a call with `files: []` passes parameter validation for every
path resolver, access policy, stat probe and placeholder detector (the
per-entry loop never runs), execution fans out over zero targets — so no
write and no per-target side effect happens — and the result is the
all-failed display `Failed to write files.` with empty model content. -/
theorem C10_empty_batch_write :
    (∀ (resolve : String → String) (access : String → Option String)
      (stat : String → StatProbe) (omission : String → Bool),
      writeValidateToolParamValues resolve access stat omission { files := some [] } = none) ∧
    writeFilesToWrite { files := some [] } = [] ∧
    (∀ (perTarget : WriteFileEntry → WriteTargetOutcome),
      writeExecute { files := some [] } perTarget
        = { llmContent := "", returnDisplay := "Failed to write files." }) :=
  ⟨fun _ _ _ _ => rfl, rfl, fun _ => rfl⟩

/-! ## C1 — bulk aggregation: partition, order, display phrasing -/

theorem writeAggregate_llmContent (res : List WriteTargetOutcome) :
    (writeAggregate res).llmContent
      = String.intercalate "\n" ((res.filter (fun r => !isWriteErr r)).map writeOkContent)
        ++ (if res.countP isWriteErr = 0 then ""
            else "\nErrors:\n"
              ++ String.intercalate "\n" ((res.filter isWriteErr).map writeErrLine)) := by
  have hcnt := (filter_partition_lengths isWriteErr res).2
  by_cases hk : res.countP isWriteErr = 0
  · simp [writeAggregate, hcnt, hk, String.append_empty]
  · simp [writeAggregate, hcnt, hk, Nat.pos_of_ne_zero hk, String.append_assoc]

theorem writeAggregate_display (res : List WriteTargetOutcome) :
    ((writeAggregate res).returnDisplay
        = "Wrote " ++ toString (res.filter (fun r => !isWriteErr r)).length ++ " file(s)."
      ↔ 0 < (res.filter (fun r => !isWriteErr r)).length) ∧
    ((writeAggregate res).returnDisplay = "Failed to write files."
      ↔ (res.filter (fun r => !isWriteErr r)).length = 0) := by
  have hd : (writeAggregate res).returnDisplay
      = if 0 < (res.filter (fun r => !isWriteErr r)).length then
          "Wrote " ++ toString (res.filter (fun r => !isWriteErr r)).length ++ " file(s)."
        else "Failed to write files." := rfl
  rw [hd]
  by_cases hpos : 0 < (res.filter (fun r => !isWriteErr r)).length
  · rw [if_pos hpos]
    exact ⟨⟨fun _ => hpos, fun _ => rfl⟩,
           ⟨fun h => absurd h (wrote_ne_failed _ _), fun h => absurd h (by omega)⟩⟩
  · rw [if_neg hpos]
    exact ⟨⟨fun h => absurd h.symm (wrote_ne_failed _ _), fun h => absurd h hpos⟩,
           ⟨fun _ => by omega, fun _ => rfl⟩⟩

theorem readAggregate_llmContent (res : List ReadTargetOutcome) :
    (readAggregate res).llmContent
      = String.intercalate "\n" ((res.filter (fun r => !isReadErr r)).map readOkContent)
        ++ (if res.countP isReadErr = 0 then ""
            else "\n\nErrors encountered:\n"
              ++ String.intercalate "\n" ((res.filter isReadErr).map readErrLine)) := by
  have hcnt := (filter_partition_lengths isReadErr res).2
  by_cases hk : res.countP isReadErr = 0
  · simp [readAggregate, hcnt, hk, String.append_empty]
  · simp [readAggregate, hcnt, hk, Nat.pos_of_ne_zero hk, String.append_assoc]

theorem readAggregate_display (res : List ReadTargetOutcome) :
    ((readAggregate res).returnDisplay
        = "Read " ++ toString (res.filter (fun r => !isReadErr r)).length ++ " file(s)."
      ↔ 0 < (res.filter (fun r => !isReadErr r)).length) ∧
    ((readAggregate res).returnDisplay = "Failed to read files."
      ↔ (res.filter (fun r => !isReadErr r)).length = 0) := by
  have hd : (readAggregate res).returnDisplay
      = if 0 < (res.filter (fun r => !isReadErr r)).length then
          "Read " ++ toString (res.filter (fun r => !isReadErr r)).length ++ " file(s)."
        else "Failed to read files." := rfl
  rw [hd]
  by_cases hpos : 0 < (res.filter (fun r => !isReadErr r)).length
  · rw [if_pos hpos]
    exact ⟨⟨fun _ => hpos, fun _ => rfl⟩,
           ⟨fun h => absurd h (read_ne_failed _ _), fun h => absurd h (by omega)⟩⟩
  · rw [if_neg hpos]
    exact ⟨⟨fun h => absurd h.symm (read_ne_failed _ _), fun h => absurd h hpos⟩,
           ⟨fun _ => by omega, fun _ => rfl⟩⟩

/-- C1: for a write or read batch of `N` targets of which `k` fail, the
aggregate has exactly `N - k` success entries and `k` failure entries
(every target yields exactly one result, a success or a failure, never
both or neither), the model content is the in-order concatenation of the
successes with a trailing error block exactly when `k > 0`, and the
display summary uses the success phrasing `Wrote/Read N file(s)` exactly
when `N - k > 0` (otherwise the all-failed message). -/
theorem C1_bulk_aggregation (wTargets : List WriteFileEntry)
    (wPer : WriteFileEntry → WriteTargetOutcome)
    (rTargets : List ReadTargetSpec) (rPer : ReadTargetSpec → ReadTargetOutcome) :
    (wTargets.map wPer).length = wTargets.length ∧
    ((wTargets.map wPer).filter (fun r => !isWriteErr r)).length
      = wTargets.length - (wTargets.map wPer).countP isWriteErr ∧
    ((wTargets.map wPer).filter isWriteErr).length = (wTargets.map wPer).countP isWriteErr ∧
    (wTargets.map wPer).countP isWriteErr ≤ wTargets.length ∧
    (writeExecute { files := some wTargets } wPer).llmContent
      = String.intercalate "\n"
          (((wTargets.map wPer).filter (fun r => !isWriteErr r)).map writeOkContent)
        ++ (if (wTargets.map wPer).countP isWriteErr = 0 then ""
            else "\nErrors:\n" ++ String.intercalate "\n"
              (((wTargets.map wPer).filter isWriteErr).map writeErrLine)) ∧
    ((writeExecute { files := some wTargets } wPer).returnDisplay
        = "Wrote "
          ++ toString (wTargets.length - (wTargets.map wPer).countP isWriteErr)
          ++ " file(s)."
      ↔ 0 < wTargets.length - (wTargets.map wPer).countP isWriteErr) ∧
    ((writeExecute { files := some wTargets } wPer).returnDisplay
        = "Failed to write files."
      ↔ wTargets.length - (wTargets.map wPer).countP isWriteErr = 0) ∧
    (rTargets.map rPer).length = rTargets.length ∧
    ((rTargets.map rPer).filter (fun r => !isReadErr r)).length
      = rTargets.length - (rTargets.map rPer).countP isReadErr ∧
    ((rTargets.map rPer).filter isReadErr).length = (rTargets.map rPer).countP isReadErr ∧
    (readExecute { files := some rTargets } rPer).llmContent
      = String.intercalate "\n"
          (((rTargets.map rPer).filter (fun r => !isReadErr r)).map readOkContent)
        ++ (if (rTargets.map rPer).countP isReadErr = 0 then ""
            else "\n\nErrors encountered:\n" ++ String.intercalate "\n"
              (((rTargets.map rPer).filter isReadErr).map readErrLine)) ∧
    ((readExecute { files := some rTargets } rPer).returnDisplay
        = "Read "
          ++ toString (rTargets.length - (rTargets.map rPer).countP isReadErr)
          ++ " file(s)."
      ↔ 0 < rTargets.length - (rTargets.map rPer).countP isReadErr) ∧
    ((readExecute { files := some rTargets } rPer).returnDisplay
        = "Failed to read files."
      ↔ rTargets.length - (rTargets.map rPer).countP isReadErr = 0) := by
  obtain ⟨hwsum, hwcnt⟩ := filter_partition_lengths isWriteErr (wTargets.map wPer)
  obtain ⟨hrsum, hrcnt⟩ := filter_partition_lengths isReadErr (rTargets.map rPer)
  have hwlen : (wTargets.map wPer).length = wTargets.length := List.length_map _ _
  have hrlen : (rTargets.map rPer).length = rTargets.length := List.length_map _ _
  have hwsucc : ((wTargets.map wPer).filter (fun r => !isWriteErr r)).length
      = wTargets.length - (wTargets.map wPer).countP isWriteErr := by omega
  have hrsucc : ((rTargets.map rPer).filter (fun r => !isReadErr r)).length
      = rTargets.length - (rTargets.map rPer).countP isReadErr := by omega
  have hwexec : writeExecute { files := some wTargets } wPer
      = writeAggregate (wTargets.map wPer) := rfl
  have hrexec : readExecute { files := some rTargets } rPer
      = readAggregate (rTargets.map rPer) := rfl
  refine ⟨hwlen, hwsucc, by omega, by omega, ?_, ?_, ?_, hrlen, hrsucc, by omega, ?_, ?_, ?_⟩
  · rw [hwexec, writeAggregate_llmContent]
  · rw [hwexec, ← hwsucc]
    exact (writeAggregate_display _).1
  · rw [hwexec, ← hwsucc]
    exact (writeAggregate_display _).2
  · rw [hrexec, readAggregate_llmContent]
  · rw [hrexec, ← hrsucc]
    exact (readAggregate_display _).1
  · rw [hrexec, ← hrsucc]
    exact (readAggregate_display _).2

/-! ## C2 — fact-store id assignment on save -/

theorem le_foldl_max (l : List Nat) (a : Nat) :
    a ≤ l.foldl Nat.max a ∧ ∀ x ∈ l, x ≤ l.foldl Nat.max a := by
  induction l generalizing a with
  | nil => simp
  | cons b t ih =>
    refine ⟨le_trans (Nat.le_max_left a b) (ih (Nat.max a b)).1, ?_⟩
    intro x hx
    rcases List.mem_cons.mp hx with hx | hx
    · subst hx
      exact le_trans (Nat.le_max_right a x) (ih (Nat.max a x)).1
    · exact (ih (Nat.max a b)).2 x hx

/-- C2: `save` appends the new record at the end (all existing records
keep their positions), the new record carries id `max(existing ids) + 1`
— strictly above every existing id — or `1` on an empty store, and on the
store with ids `{1, 5}` the saved fact gets id `6`, appended after the
record with id `5`. -/
theorem C2_save_id_assignment (ms : List Memory) (fact : List Char) :
    (saveMemories ms fact).length = ms.length + 1 ∧
    (saveMemories ms fact).take ms.length = ms ∧
    (saveMemories ms fact).getLast? = some ⟨nextMemoryId ms, normalizeFact fact⟩ ∧
    nextMemoryId [] = 1 ∧
    (∀ m ∈ ms, m.id < nextMemoryId ms) ∧
    saveMemories [⟨1, str "first fact"⟩, ⟨5, str "fifth fact"⟩] (str "new fact")
      = [⟨1, str "first fact"⟩, ⟨5, str "fifth fact"⟩, ⟨6, str "new fact"⟩] ∧
    saveMemories [] fact = [⟨1, normalizeFact fact⟩] := by
  refine ⟨by simp [saveMemories], ?_, ?_, by decide, ?_, by decide,
    by simp [saveMemories, nextMemoryId]⟩
  · rw [saveMemories]
    exact List.take_left ms _
  · rw [saveMemories]
    exact List.getLast?_concat _
  · intro m hm
    have hne : ¬ms.isEmpty := by
      cases ms with
      | nil => exact absurd hm (by simp)
      | cons a t => simp
    rw [nextMemoryId, if_neg hne]
    have hmem : m.id ∈ ms.map (fun m => m.id) := List.mem_map_of_mem _ hm
    have := (le_foldl_max (ms.map (fun m => m.id)) 0).2 m.id hmem
    omega

theorem C2_save_id_assignment_witness :
    (Memory.mk 5 (str "fifth fact")).id
      < nextMemoryId [⟨1, str "first fact"⟩, ⟨5, str "fifth fact"⟩] :=
  (C2_save_id_assignment [⟨1, str "first fact"⟩, ⟨5, str "fifth fact"⟩]
    (str "new fact")).2.2.2.2.1 ⟨5, str "fifth fact"⟩ (by simp)

/-! ## C8 — read-tool line-range validation -/

theorem readValidateEntry_none_ranges (resolve : String → String)
    (validatePathAccess : String → Option String) (shouldIgnoreFile : String → Bool)
    (f : ReadValidateEntry)
    (h : readValidateEntry resolve validatePathAccess shouldIgnoreFile f = none) :
    (∀ s, f.start_line = some s → 1 ≤ s) ∧
    (∀ e, f.end_line = some e → 1 ≤ e) ∧
    (∀ s e, f.start_line = some s → f.end_line = some e → s ≤ e) := by
  obtain ⟨fpOpt, sl, el⟩ := f
  simp only [readValidateEntry] at h
  split at h
  · exact absurd h (by simp)
  · split at h
    · exact absurd h (by simp)
    · split at h
      · exact absurd h (by simp)
      · split at h
        · exact absurd h (by simp)
        · split at h
          · exact absurd h (by simp)
          · split at h
            · exact absurd h (by simp)
            · split at h
              · exact absurd h (by simp)
              · rename_i h1 h2 h3 h4
                refine ⟨?_, ?_, ?_⟩
                · intro s hs
                  simp only at hs
                  subst hs
                  simp at h1
                  omega
                · intro e he
                  simp only at he
                  subst he
                  simp at h2
                  omega
                · intro s e hs he
                  simp only at hs he
                  subst hs
                  subst he
                  simp at h3
                  omega

theorem readValidateList_none (resolve : String → String)
    (validatePathAccess : String → Option String) (shouldIgnoreFile : String → Bool) :
    ∀ (l : List ReadValidateEntry),
      readValidateList resolve validatePathAccess shouldIgnoreFile l = none →
      ∀ f ∈ l, readValidateEntry resolve validatePathAccess shouldIgnoreFile f = none
  | [], _, f, hf => absurd hf (by simp)
  | a :: t, h, f, hf => by
    unfold readValidateList at h
    cases hA : readValidateEntry resolve validatePathAccess shouldIgnoreFile a with
    | some e =>
      rw [hA] at h
      exact absurd h (by simp)
    | none =>
      rw [hA] at h
      rcases List.mem_cons.mp hf with rfl | hf2
      · exact hA
      · exact readValidateList_none resolve validatePathAccess shouldIgnoreFile t h f hf2

/-- C8: whenever the read tool's parameter validation accepts a call
(returns no error), every target of the call has `1 ≤ start_line`,
`1 ≤ end_line` and `start_line ≤ end_line` wherever those bounds are
given — equivalently, any target violating one of the three range rules
makes validation reject the call.  The validator is a function of the
parameters, the path resolver, the access policy and the ignore
predicate alone: no file content enters it, so the rejection happens
before any read can be attempted. -/
theorem C8_read_range_validation (resolve : String → String)
    (validatePathAccess : String → Option String) (shouldIgnoreFile : String → Bool)
    (p : ReadFileToolParams)
    (h : readValidateToolParamValues resolve validatePathAccess shouldIgnoreFile p = none) :
    ∀ f ∈ readFilesToValidate p,
      (∀ s, f.start_line = some s → 1 ≤ s) ∧
      (∀ e, f.end_line = some e → 1 ≤ e) ∧
      (∀ s e, f.start_line = some s → f.end_line = some e → s ≤ e) := by
  unfold readValidateToolParamValues at h
  intro f hf
  exact readValidateEntry_none_ranges resolve validatePathAccess shouldIgnoreFile f
    (readValidateList_none resolve validatePathAccess shouldIgnoreFile _ h f hf)

theorem C8_read_range_validation_witness :
    (∀ s, ReadValidateEntry.start_line ⟨some "a.txt", some 2, some 5⟩ = some s → 1 ≤ s) ∧
    (∀ e, ReadValidateEntry.end_line ⟨some "a.txt", some 2, some 5⟩ = some e → 1 ≤ e) ∧
    (∀ s e, ReadValidateEntry.start_line ⟨some "a.txt", some 2, some 5⟩ = some s →
      ReadValidateEntry.end_line ⟨some "a.txt", some 2, some 5⟩ = some e → s ≤ e) :=
  C8_read_range_validation (fun s => s) (fun _ => none) (fun _ => false)
    { file_path := some "a.txt", start_line := some 2, end_line := some 5 }
    (by decide) ⟨some "a.txt", some 2, some 5⟩ (by simp [readFilesToValidate])

/-! ## C3 — ProceedAlways and the confirmation allowlist -/

/-- C3 counterexample: the claim fails for the write tool.  A single-file
write in the default approval mode shows an edit confirmation; resolving
it with `ProceedAlways` leaves the invocation parameters (and everything
else — the write tool's `onConfirm` ignores the outcome and no allowlist
exists on its path) unchanged, and the confirmation-details computation
of the next identical invocation still returns an edit prompt instead of
no-prompt. -/
theorem C3_counterexample :
    writeOnConfirm .proceedAlways none
        { file_path := some "a.txt", content := some "x" }
      = { file_path := some "a.txt", content := some "x" } ∧
    writeGetConfirmationDetails .DEFAULT (fun _ _ => "")
        { file_path := some "a.txt", content := some "x" }
        (getCorrectedFileContent (.ok "old") "x" (fun _ n => n) (fun n => n))
      = .edit "" "old" "x" ∧
    writeGetConfirmationDetails .DEFAULT (fun _ _ => "")
        (writeOnConfirm .proceedAlways none
          { file_path := some "a.txt", content := some "x" })
        (getCorrectedFileContent (.ok "old") "x" (fun _ n => n) (fun n => n))
      ≠ .noConfirm := ⟨rfl, rfl, by decide⟩

/-- C3 as amended: for the fact-store tool the claim holds — resolving a
mutating confirmation with `ProceedAlways` records the allowlist key
`(action, memory-file path)`, and any later invocation whose action and
path match that key skips confirmation (its confirmation-details
computation returns no-prompt, whatever the store content and the rest of
the parameters).  The write tool, by contrast, ignores `ProceedAlways`:
its `onConfirm` leaves the invocation unchanged and records nothing, and
a later identical single-file invocation prompts again whenever the
approval mode is not auto-edit and reconciliation succeeded. -/
theorem C3_proceed_always_allowlist :
    (∀ (outcome : ToolConfirmationOutcome) (a : MemAction) (memPath : String)
      (allowlist : List (MemAction × String)),
      outcome = .proceedAlways →
      (a, memPath) ∈ memOnConfirm outcome a memPath allowlist) ∧
    (∀ (p : MemoriesParams) (allowlist : List (MemAction × String))
      (memPath : String) (currentContent : List Char),
      (p.action, memPath) ∈ allowlist →
      memGetConfirmationDetails p allowlist memPath currentContent = none) ∧
    (∀ (outcome : ToolConfirmationOutcome) (p : WriteFileToolParams),
      writeOnConfirm outcome none p = p) ∧
    (∀ (mode : ApprovalMode) (createPatch : String → String → String)
      (p : WriteFileToolParams) (r : GetCorrectedFileContentResult),
      mode ≠ .AUTO_EDIT → p.files = none → r.error = none →
      writeGetConfirmationDetails mode createPatch p r
        = .edit (createPatch r.originalContent r.correctedContent)
            r.originalContent r.correctedContent) := by
  refine ⟨?_, ?_, ?_, ?_⟩
  · intro outcome a memPath allowlist h
    subst h
    simp [memOnConfirm]
  · intro p allowlist memPath currentContent hmem
    have hc : allowlist.contains (p.action, memPath) = true := by
      simpa using hmem
    by_cases hf : p.action = .fetch
    · simp [memGetConfirmationDetails, hf]
    · simp [memGetConfirmationDetails, hf, hc]
      intro h
      exact absurd hmem h
  · intro outcome p
    rfl
  · intro mode createPatch p r hmode hfiles herr
    simp [writeGetConfirmationDetails, hmode, hfiles, herr]

theorem C3_proceed_always_allowlist_witness :
    (MemAction.save, "mem") ∈ memOnConfirm .proceedAlways .save "mem" [] ∧
    memGetConfirmationDetails { action := .save, fact := some (str "f") }
      [(MemAction.save, "mem")] "mem" [] = none ∧
    writeOnConfirm .proceed none { file_path := some "a.txt" }
      = { file_path := some "a.txt" } ∧
    writeGetConfirmationDetails .DEFAULT (fun _ _ => "")
      { file_path := some "a.txt", content := some "x" }
      (getCorrectedFileContent (.ok "old") "x" (fun _ n => n) (fun n => n))
      = .edit "" "old" "x" :=
  ⟨C3_proceed_always_allowlist.1 .proceedAlways .save "mem" [] rfl,
   C3_proceed_always_allowlist.2.1 { action := .save, fact := some (str "f") }
     [(MemAction.save, "mem")] "mem" [] (by simp),
   C3_proceed_always_allowlist.2.2.1 .proceed { file_path := some "a.txt" },
   C3_proceed_always_allowlist.2.2.2 .DEFAULT (fun _ _ => "")
     { file_path := some "a.txt", content := some "x" }
     (getCorrectedFileContent (.ok "old") "x" (fun _ n => n) (fun n => n))
     (by decide) rfl rfl⟩

/-! ## C6 — fact-store update and delete semantics -/

theorem deleteMemories_length_of_mem (i : Nat) :
    ∀ (ms : List Memory), (ms.map (fun m => m.id)).Nodup →
      (∃ m ∈ ms, m.id = i) → (deleteMemories ms i).length + 1 = ms.length
  | [], _, hex => absurd hex (by simp)
  | a :: t, hnd, hex => by
    have hnd2 := (List.nodup_cons.mp hnd).2
    by_cases ha : a.id = i
    · have hnoti : ∀ m ∈ t, m.id ≠ i := by
        intro m hm hmi
        have : a.id ∈ t.map (fun m => m.id) := by
          rw [ha, ← hmi]
          exact List.mem_map_of_mem _ hm
        exact (List.nodup_cons.mp hnd).1 this
      have hdel : deleteMemories t i = t := by
        rw [deleteMemories]
        apply List.filter_eq_self.mpr
        intro m hm
        simpa using hnoti m hm
      have hstep : deleteMemories (a :: t) i = deleteMemories t i := by
        simp [deleteMemories, List.filter_cons, ha]
      rw [hstep, hdel]
      simp
    · rcases hex with ⟨m0, hm0, hm0i⟩
      have hm0t : m0 ∈ t := by
        rcases List.mem_cons.mp hm0 with rfl | h
        · exact absurd hm0i ha
        · exact h
      have hrec := deleteMemories_length_of_mem i t hnd2 ⟨m0, hm0t, hm0i⟩
      have hstep : deleteMemories (a :: t) i = a :: deleteMemories t i := by
        simp [deleteMemories, List.filter_cons, ha]
      rw [hstep]
      simp only [List.length_cons]
      omega

/-- C6 as amended: on the direct execution path (no confirmation preview
was computed first, so `proposedNewContent` is unset) `update` with an
absent id fails with the not-found condition and writes nothing, while
`update` with a present id succeeds, writing the store in which exactly
the matching record's fact is replaced — ids and positions are untouched
and every other record is preserved.  `delete` always succeeds: with an
absent id it is a silent no-op rewriting the unchanged store, with a
present id (ids being unique) it removes exactly the matching record and
keeps all others.  When the confirmation preview did run first, execution
writes the precomputed content and reports success even for an absent
update id — see the counterexample. -/
theorem C6_update_delete (ms : List Memory) (i : Nat) (f : List Char) :
    (f ≠ [] → (∀ m ∈ ms, m.id ≠ i) →
      executeMemoriesCore { action := .update, id := some i, fact := some f } none ms
        = ⟨true, none, .updateNotFound i⟩) ∧
    (f ≠ [] → (∃ m ∈ ms, m.id = i) →
      executeMemoriesCore { action := .update, id := some i, fact := some f } none ms
        = ⟨false, some (formatMemories (updateMemories ms i f)), .updated i⟩) ∧
    (updateMemories ms i f).map (fun m => m.id) = ms.map (fun m => m.id) ∧
    (∀ m ∈ ms, m.id ≠ i → m ∈ updateMemories ms i f) ∧
    (∀ k : Nat, (updateMemories ms i f)[k]?
      = (ms[k]?).map
          (fun m => if m.id = i then { m with fact := normalizeFact f } else m)) ∧
    executeMemoriesCore { action := .delete, id := some i } none ms
      = ⟨false, some (formatMemories (deleteMemories ms i)), .deleted i⟩ ∧
    ((∀ m ∈ ms, m.id ≠ i) → deleteMemories ms i = ms) ∧
    ((ms.map (fun m => m.id)).Nodup → (∃ m ∈ ms, m.id = i) →
      (deleteMemories ms i).length + 1 = ms.length) ∧
    (∀ m ∈ ms, m.id ≠ i → m ∈ deleteMemories ms i) ∧
    (∀ m ∈ deleteMemories ms i, m.id ≠ i) := by
  refine ⟨?_, ?_, ?_, ?_, ?_, ?_, ?_, deleteMemories_length_of_mem i ms, ?_, ?_⟩
  · intro hf habs
    have hfe : f.isEmpty = false := by
      cases f with
      | nil => exact absurd rfl hf
      | cons c t => rfl
    have hany : ms.any (fun m => m.id == i) = false := by
      rw [List.any_eq_false]
      intro m hm
      simpa using habs m hm
    simp [executeMemoriesCore, hfe, hany]
  · intro hf hex
    have hfe : f.isEmpty = false := by
      cases f with
      | nil => exact absurd rfl hf
      | cons c t => rfl
    have hany : ms.any (fun m => m.id == i) = true := by
      rw [List.any_eq_true]
      rcases hex with ⟨m0, hm0, hm0i⟩
      exact ⟨m0, hm0, by simpa using hm0i⟩
    simp [executeMemoriesCore, hfe, hany]
  · rw [updateMemories, List.map_map]
    apply List.map_congr_left
    intro m _
    by_cases h : m.id = i <;> simp [h]
  · intro m hm hmi
    have : (if m.id = i then { m with fact := normalizeFact f } else m) ∈ updateMemories ms i f :=
      List.mem_map_of_mem _ hm
    rwa [if_neg hmi] at this
  · intro k
    rw [updateMemories]
    exact List.getElem?_map _ ms k
  · rfl
  · intro habs
    rw [deleteMemories]
    apply List.filter_eq_self.mpr
    intro m hm
    simpa using habs m hm
  · intro m hm hmi
    rw [deleteMemories]
    rw [List.mem_filter]
    exact ⟨hm, by simpa using hmi⟩
  · intro m hm
    have := (List.mem_filter.mp hm).2
    simpa using this

theorem C6_update_delete_witness :
    executeMemoriesCore { action := .update, id := some 9, fact := some (str "x") }
        none [⟨1, str "a"⟩]
      = ⟨true, none, .updateNotFound 9⟩ ∧
    executeMemoriesCore { action := .update, id := some 1, fact := some (str "x") }
        none [⟨1, str "a"⟩]
      = ⟨false, some (formatMemories (updateMemories [⟨1, str "a"⟩] 1 (str "x"))),
          .updated 1⟩ ∧
    deleteMemories [⟨1, str "a"⟩] 9 = [⟨1, str "a"⟩] ∧
    (deleteMemories [⟨1, str "a"⟩, ⟨2, str "b"⟩] 2).length + 1
      = ([⟨1, str "a"⟩, ⟨2, str "b"⟩] : List Memory).length :=
  ⟨(C6_update_delete [⟨1, str "a"⟩] 9 (str "x")).1 (by decide) (by decide),
   (C6_update_delete [⟨1, str "a"⟩] 1 (str "x")).2.1 (by decide)
     ⟨⟨1, str "a"⟩, by simp, rfl⟩,
   (C6_update_delete [⟨1, str "a"⟩] 9 (str "x")).2.2.2.2.2.2.1 (by decide),
   (C6_update_delete [⟨1, str "a"⟩, ⟨2, str "b"⟩] 2 (str "x")).2.2.2.2.2.2.2.1
     (by decide) ⟨⟨2, str "b"⟩, by simp, rfl⟩⟩

/-- C6 counterexample: the claim's universal "update with an absent id
fails with a not-found condition" is false on the confirmation-first
path.  On the empty store, `getConfirmationDetails` for an update of the
absent id 1 happily computes a proposed content (it performs no existence
check), and `execute` with that `proposedNewContent` set writes it and
reports success — no not-found condition. -/
theorem C6_counterexample :
    memGetConfirmationDetails { action := .update, id := some 1, fact := some (str "x") }
        [] "mem" (str "")
      = some (formatMemories []) ∧
    executeMemoriesCore { action := .update, id := some 1, fact := some (str "x") }
        (some (formatMemories [])) []
      = ⟨false, some (formatMemories []), .actionSuccessful .update⟩ ∧
    executeMemoriesCore { action := .update, id := some 1, fact := some (str "x") }
        (some (formatMemories [])) []
      ≠ ⟨true, none, .updateNotFound 1⟩ := by
  refine ⟨by decide, rfl, by decide⟩

/-! ## C4 — line-ending handling on write -/

theorem toCRLF_other (c : Char) (rest : List Char) (h1 : c ≠ '\r') (h2 : c ≠ '\n') :
    toCRLF (c :: rest) = c :: toCRLF rest := by
  rw [toCRLF.eq_def]
  split
  · rename_i heq
    injection heq with hx hy
    exact absurd hx h1
  · rename_i heq
    injection heq with hx hy
    exact absurd hx h2
  · rename_i x xs heq
    injection heq with hx hy
    subst hx
    subst hy
    rfl
  · rename_i heq
    exact absurd heq (by simp)

theorem crlfOnly_other (c : Char) (rest : List Char) (h1 : c ≠ '\r') (h2 : c ≠ '\n') :
    crlfOnly (c :: rest) = crlfOnly rest := by
  rw [crlfOnly.eq_def]
  split
  · rename_i heq
    injection heq with hx hy
    exact absurd hx h1
  · rename_i heq
    injection heq with hx hy
    exact absurd hx h1
  · rename_i heq
    injection heq with hx hy
    exact absurd hx h2
  · rename_i x xs heq
    injection heq with hx hy
    subst hx
    subst hy
    rfl
  · rename_i heq
    exact absurd heq (by simp)

theorem crlfOnly_toCRLF : ∀ (s : List Char), s.contains '\r' = false →
    crlfOnly (toCRLF s) = true
  | [], _ => rfl
  | c :: rest, h => by
    have hsplit : ¬('\r' = c ∨ rest.contains '\r' = true) := by
      intro hor
      rw [List.contains_cons] at h
      rcases hor with hor | hor
      · rw [← hor] at h
        simp at h
      · rw [hor] at h
        simp at h
    have hc : c ≠ '\r' := fun hEq => hsplit (Or.inl hEq.symm)
    have hrest : rest.contains '\r' = false := by
      cases hcontains : rest.contains '\r' with
      | false => rfl
      | true => exact absurd (Or.inr hcontains) hsplit
    by_cases hn : c = '\n'
    · subst hn
      show crlfOnly ('\r' :: '\n' :: toCRLF rest) = true
      show crlfOnly (toCRLF rest) = true
      exact crlfOnly_toCRLF rest hrest
    · rw [toCRLF_other c rest hc hn, crlfOnly_other c (toCRLF rest) hc hn]
      exact crlfOnly_toCRLF rest hrest

/-- C4 counterexample: normalization does not happen toward LF.  With a
pre-existing file whose content is `a\nb\n` — every detection agrees its
dominant line ending is LF — proposing `x\r\ny\r\n` writes exactly
`x\r\ny\r\n`: the CRLF pairs survive, so the written content's line
endings are not normalized to match the detected dominant ending.  The
same happens for a new file on an LF host. -/
theorem C4_counterexample :
    detectLineEnding (str "a\nb\n") = .lf ∧
    writeFinalContent false (str "a\nb\n") false (str "x\r\ny\r\n") = str "x\r\ny\r\n" ∧
    lfOnly (writeFinalContent false (str "a\nb\n") false (str "x\r\ny\r\n")) = false ∧
    writeFinalContent true [] false (str "x\r\ny\r\n") = str "x\r\ny\r\n" ∧
    lfOnly (writeFinalContent true [] false (str "x\r\ny\r\n")) = false := by
  decide

/-- C4 as amended: line-ending normalization is one-directional, toward
CRLF only.  When the target pre-existed with non-empty content whose
detected dominant ending is CRLF — or when the file is new or was empty
and the host end-of-line marker is CRLF — every line ending of the
written content is rewritten to CRLF (and the result is entirely CRLF
whenever the proposed content carries no carriage return, covering the
spec's CRLF-preservation scenario).  In every other case the content is
written unchanged: nothing is normalized toward LF. -/
theorem C4_line_ending_normalization (orig content : List Char) (eolIsCRLF : Bool) :
    (orig ≠ [] → detectLineEnding orig = .crlf →
      writeFinalContent false orig eolIsCRLF content = toCRLF content) ∧
    (orig ≠ [] → detectLineEnding orig = .lf →
      writeFinalContent false orig eolIsCRLF content = content) ∧
    writeFinalContent true orig true content = toCRLF content ∧
    writeFinalContent true orig false content = content ∧
    writeFinalContent false [] true content = toCRLF content ∧
    writeFinalContent false [] false content = content ∧
    (content.contains '\r' = false → crlfOnly (toCRLF content) = true) ∧
    writeFinalContent false (str "a\r\nb\r\n") false (str "x\ny\n") = str "x\r\ny\r\n" ∧
    crlfOnly (str "x\r\ny\r\n") = true := by
  have hne : ∀ (o : List Char), o ≠ [] → o.isEmpty = false := by
    intro o ho
    cases o with
    | nil => exact absurd rfl ho
    | cons c t => rfl
  refine ⟨?_, ?_, rfl, rfl, rfl, rfl, crlfOnly_toCRLF content, by decide, by decide⟩
  · intro ho hd
    simp [writeFinalContent, hne orig ho, hd]
  · intro ho hd
    simp [writeFinalContent, hne orig ho, hd]

theorem C4_line_ending_normalization_witness :
    writeFinalContent false (str "a\r\nb\r\n") false (str "x\ny\n")
      = toCRLF (str "x\ny\n") ∧
    writeFinalContent false (str "a\nb\n") true (str "x\ny\n") = str "x\ny\n" ∧
    crlfOnly (toCRLF (str "x\ny\n")) = true :=
  ⟨(C4_line_ending_normalization (str "a\r\nb\r\n") (str "x\ny\n") false).1
     (by decide) (by decide),
   (C4_line_ending_normalization (str "a\nb\n") (str "x\ny\n") true).2.1
     (by decide) (by decide),
   (C4_line_ending_normalization [] (str "x\ny\n") false).2.2.2.2.2.2.1 (by decide)⟩

/-! ## C7 — round trip of the memory file format -/

theorem digitVal_digitChar (k : Nat) (h : k < 10) : digitVal (Nat.digitChar k) = k := by
  interval_cases k <;> decide

theorem isDigit_digitChar (k : Nat) (h : k < 10) : (Nat.digitChar k).isDigit = true := by
  interval_cases k <;> decide

theorem parseDigits_concat (l : List Char) (c : Char) :
    parseDigits (l ++ [c]) = parseDigits l * 10 + digitVal c := by
  rw [parseDigits, List.foldl_append]
  rfl

theorem formatNatAux_spec : ∀ (fuel n : Nat), n < fuel →
    formatNatAux fuel n ≠ [] ∧ (∀ c ∈ formatNatAux fuel n, c.isDigit = true) ∧
    parseDigits (formatNatAux fuel n) = n
  | 0, n, h => absurd h (by omega)
  | fuel + 1, n, h => by
    by_cases h10 : n < 10
    · rw [formatNatAux, if_pos h10]
      refine ⟨by simp, ?_, ?_⟩
      · intro c hc
        rw [List.mem_singleton] at hc
        subst hc
        exact isDigit_digitChar n h10
      · show parseDigits ([] ++ [Nat.digitChar n]) = n
        rw [parseDigits_concat]
        rw [digitVal_digitChar n h10]
        show 0 * 10 + n = n
        omega
    · have hdivlt : n / 10 < fuel := by
        have h1 : n / 10 < n := Nat.div_lt_self (by omega) (by omega)
        omega
      obtain ⟨hne, hdig, hval⟩ := formatNatAux_spec fuel (n / 10) hdivlt
      rw [formatNatAux, if_neg h10]
      have hmod : n % 10 < 10 := Nat.mod_lt n (by omega)
      refine ⟨by simp, ?_, ?_⟩
      · intro c hc
        rcases List.mem_append.mp hc with hc | hc
        · exact hdig c hc
        · rw [List.mem_singleton] at hc
          subst hc
          exact isDigit_digitChar _ hmod
      · rw [parseDigits_concat, hval, digitVal_digitChar _ hmod]
        omega

theorem formatNat_spec (n : Nat) :
    formatNat n ≠ [] ∧ (∀ c ∈ formatNat n, c.isDigit = true) ∧
    parseDigits (formatNat n) = n :=
  formatNatAux_spec (n + 1) n (by omega)

theorem takeWhile_all_append (p : Char → Bool) :
    ∀ (l1 : List Char) (c : Char) (l2 : List Char), (∀ x ∈ l1, p x = true) →
      p c = false →
      (l1 ++ c :: l2).takeWhile p = l1 ∧ (l1 ++ c :: l2).dropWhile p = c :: l2
  | [], c, l2, _, hc => by
    constructor
    · rw [List.nil_append, List.takeWhile_cons, hc]
      simp
    · rw [List.nil_append, List.dropWhile_cons, hc]
      simp
  | a :: t, c, l2, hall, hc => by
    obtain ⟨ht, hd⟩ := takeWhile_all_append p t c l2 (fun x hx => hall x (by simp [hx])) hc
    have ha : p a = true := hall a (by simp)
    constructor
    · rw [List.cons_append, List.takeWhile_cons, ha]
      simp [ht]
    · rw [List.cons_append, List.dropWhile_cons, ha]
      simp [hd]

theorem dropWhile_sat_left (p : Char → Bool) (l1 l2 : List Char)
    (hall : ∀ x ∈ l1, p x = true) :
    (l1 ++ l2).dropWhile p = l2.dropWhile p := by
  induction l1 with
  | nil => rfl
  | cons a t ih =>
    rw [List.cons_append, List.dropWhile_cons, hall a (by simp)]
    simp only [if_true]
    exact ih (fun x hx => hall x (by simp [hx]))

theorem trimLeft_cons (c : Char) (l : List Char) (h : isJsWs c = false) :
    trimLeft (c :: l) = c :: l := by
  rw [trimLeft, List.dropWhile_cons, h]
  simp

theorem trimRight_concat (l : List Char) (c : Char) (h : isJsWs c = false) :
    trimRight (l ++ [c]) = l ++ [c] := by
  rw [trimRight, List.reverse_append, List.reverse_singleton, List.singleton_append,
    List.dropWhile_cons, h]
  simp

theorem trim_cons_concat (c : Char) (mid : List Char) (d : Char)
    (hc : isJsWs c = false) (hd : isJsWs d = false) :
    trim (c :: (mid ++ [d])) = c :: (mid ++ [d]) := by
  rw [trim, trimLeft_cons c _ hc]
  rw [show c :: (mid ++ [d]) = (c :: mid) ++ [d] from rfl]
  exact trimRight_concat _ d hd

theorem trim_singleton (c : Char) (hc : isJsWs c = false) :
    trim [c] = [c] := by
  rw [trim, trimLeft_cons c [] hc]
  rw [show [c] = ([] : List Char) ++ [c] from rfl]
  exact trimRight_concat [] c hc

theorem splitNlAux_no_nl :
    ∀ (l acc : List Char), (∀ c ∈ l, c ≠ '\n') →
      splitNlAux l acc = [acc.reverse ++ l]
  | [], acc, _ => by simp [splitNlAux]
  | c :: t, acc, h => by
    have hc : ¬c = '\n' := h c (by simp)
    rw [splitNlAux, if_neg hc]
    rw [splitNlAux_no_nl t (c :: acc) (fun x hx => h x (by simp [hx]))]
    simp

theorem splitNlAux_append_nl :
    ∀ (l1 : List Char) (cs acc : List Char), (∀ c ∈ l1, c ≠ '\n') →
      splitNlAux (l1 ++ '\n' :: cs) acc = (acc.reverse ++ l1) :: splitNlAux cs []
  | [], cs, acc, _ => by
    rw [List.nil_append, splitNlAux, if_pos rfl]
    simp
  | c :: t, cs, acc, h => by
    have hc : ¬c = '\n' := h c (by simp)
    rw [List.cons_append, splitNlAux, if_neg hc]
    rw [splitNlAux_append_nl t cs (c :: acc) (fun x hx => h x (by simp [hx]))]
    simp

theorem trim_eq_self_parts (l : List Char) (h : trim l = l) :
    trimLeft l = l ∧ trimRight l = l := by
  have hlen1 : (trimLeft l).length ≤ l.length := (List.dropWhile_sublist _).length_le
  have hlen2 : (trimRight (trimLeft l)).length ≤ (trimLeft l).length := by
    rw [trimRight, List.length_reverse]
    calc (List.dropWhile isJsWs (trimLeft l).reverse).length
        ≤ (trimLeft l).reverse.length := (List.dropWhile_sublist _).length_le
      _ = (trimLeft l).length := List.length_reverse _
  have hlen : (trim l).length = l.length := by rw [h]
  rw [trim] at hlen
  have h1 : (trimLeft l).length = l.length := by omega
  have hTL : trimLeft l = l := (List.dropWhile_sublist _).eq_of_length h1
  refine ⟨hTL, ?_⟩
  rw [trim, hTL] at h
  exact h

theorem trim_eq_self_head (l : List Char) (h : trim l = l) :
    ∀ c t, l = c :: t → isJsWs c = false := by
  intro c t hl
  have hTL := (trim_eq_self_parts l h).1
  subst hl
  cases hb : isJsWs c with
  | false => rfl
  | true =>
    rw [trimLeft, List.dropWhile_cons, hb, if_pos rfl] at hTL
    have hle : (List.dropWhile isJsWs t).length ≤ t.length :=
      (List.dropWhile_sublist _).length_le
    have := congrArg List.length hTL
    simp at this
    omega

theorem trim_eq_self_last (l : List Char) (h : trim l = l) :
    ∀ t c, l = t ++ [c] → isJsWs c = false := by
  intro t c hl
  have hTR := (trim_eq_self_parts l h).2
  subst hl
  cases hb : isJsWs c with
  | false => rfl
  | true =>
    rw [trimRight, List.reverse_append, List.reverse_singleton, List.singleton_append,
      List.dropWhile_cons, hb, if_pos rfl] at hTR
    have hle : (List.dropWhile isJsWs t.reverse).length ≤ t.length := by
      calc (List.dropWhile isJsWs t.reverse).length
          ≤ t.reverse.length := (List.dropWhile_sublist _).length_le
        _ = t.length := List.length_reverse _
    have := congrArg List.length hTR
    simp at this
    omega

theorem trimRight_cons (c : Char) (R : List Char) (hc : isJsWs c = false) :
    trimRight (c :: R) = c :: trimRight R := by
  rw [trimRight, List.reverse_cons, List.dropWhile_append]
  by_cases he : (List.dropWhile isJsWs R.reverse).isEmpty
  · rw [if_pos he]
    have hone : List.dropWhile isJsWs [c] = [c] := by
      rw [List.dropWhile_cons, hc]
      simp
    have hniL : List.dropWhile isJsWs R.reverse = [] := List.isEmpty_iff.mp he
    rw [hone, trimRight, hniL]
    simp
  · rw [if_neg he, List.reverse_append, trimRight]
    simp

theorem trim_dash (R : List Char) : trim ('-' :: R) = '-' :: trimRight R := by
  rw [trim, trimLeft_cons '-' R (by decide), trimRight_cons '-' R (by decide)]

theorem trimRight_concat_ws (X : List Char) (d : Char) (hd : isJsWs d = true) :
    trimRight (X ++ [d]) = trimRight X := by
  rw [trimRight, trimRight, List.reverse_append, List.reverse_singleton,
    List.singleton_append, List.dropWhile_cons, hd]
  simp

theorem formatMemoryLine_eq (m : Memory) :
    formatMemoryLine m
      = '-' :: ' ' :: '[' :: 'I' :: 'D' :: ':' :: ' ' ::
          (formatNat m.id ++ ']' :: ' ' :: m.fact) := by
  rw [formatMemoryLine]
  simp [str, List.append_assoc]

theorem formatMemoryLine_no_nl (m : Memory) (h : m.fact.contains '\n' = false) :
    ∀ c ∈ formatMemoryLine m, c ≠ '\n' := by
  intro c hc hcnl
  subst hcnl
  rw [formatMemoryLine_eq] at hc
  simp only [List.mem_cons, List.mem_append] at hc
  rcases hc with hc | hc | hc | hc | hc | hc | hc | hc
  · exact absurd hc (by decide)
  · exact absurd hc (by decide)
  · exact absurd hc (by decide)
  · exact absurd hc (by decide)
  · exact absurd hc (by decide)
  · exact absurd hc (by decide)
  · exact absurd hc (by decide)
  · rcases hc with hc | hc | hc | hc
    · have := (formatNat_spec m.id).2.1 '\n' hc
      exact absurd this (by decide)
    · exact absurd hc (by decide)
    · exact absurd hc (by decide)
    · have : m.fact.contains '\n' = true := by
        simp only [List.contains_eq_any_beq, List.any_eq_true]
        exact ⟨'\n', hc, rfl⟩
      rw [this] at h
      exact absurd h (by decide)

theorem trim_formatMemoryLine (m : Memory) (htr : trim m.fact = m.fact) :
    trim (formatMemoryLine m)
      = '-' :: ' ' :: '[' :: 'I' :: 'D' :: ':' :: ' ' ::
          (formatNat m.id ++ ']' ::
            (if m.fact.isEmpty then [] else ' ' :: m.fact)) := by
  rcases List.eq_nil_or_concat m.fact with hfact | ⟨t, c, hfact⟩
  · rw [formatMemoryLine_eq, hfact]
    rw [trim_dash]
    have h1 : (' ' :: '[' :: 'I' :: 'D' :: ':' :: ' ' :: (formatNat m.id ++ [']', ' ']))
        = ((' ' :: '[' :: 'I' :: 'D' :: ':' :: ' ' :: formatNat m.id) ++ [']']) ++ [' '] := by
      simp [List.append_assoc]
    rw [h1, trimRight_concat_ws _ ' ' (by decide),
      trimRight_concat _ ']' (by decide)]
    simp [List.append_assoc]
  · have hlast : isJsWs c = false := trim_eq_self_last m.fact htr t c (by simpa using hfact)
    have hne : m.fact.isEmpty = false := by
      rw [hfact]
      simp
    rw [formatMemoryLine_eq, hne]
    simp only [Bool.false_eq_true, if_false]
    rw [hfact]
    have h1 : ('-' :: ' ' :: '[' :: 'I' :: 'D' :: ':' :: ' ' ::
          (formatNat m.id ++ ']' :: ' ' :: t.concat c))
        = '-' :: ((' ' :: '[' :: 'I' :: 'D' :: ':' :: ' ' ::
            (formatNat m.id ++ ']' :: ' ' :: t)) ++ [c]) := by
      simp [List.concat_eq_append, List.append_assoc]
    rw [h1]
    rw [trim_dash]
    have h2 := trimRight_concat (' ' :: '[' :: 'I' :: 'D' :: ':' :: ' ' ::
            (formatNat m.id ++ ']' :: ' ' :: t)) c hlast
    rw [h2]

theorem isDigit_not_ws (c : Char) (h : c.isDigit = true) : isJsWs c = false := by
  have h1 : c ≠ ' ' := fun he => by subst he; exact absurd h (by decide)
  have h2 : c ≠ '\t' := fun he => by subst he; exact absurd h (by decide)
  have h3 : c ≠ '\n' := fun he => by subst he; exact absurd h (by decide)
  have h4 : c ≠ '\r' := fun he => by subst he; exact absurd h (by decide)
  have h5 : c ≠ '\x0b' := fun he => by subst he; exact absurd h (by decide)
  have h6 : c ≠ '\x0c' := fun he => by subst he; exact absurd h (by decide)
  simp [isJsWs, h1, h2, h3, h4, h5, h6]

theorem matchMemoryLine_shape (ds tail : List Char)
    (hne : ds ≠ []) (hdig : ∀ c ∈ ds, c.isDigit = true)
    (hcore : (tail.dropWhile isJsWs).contains '\r' = false) :
    matchMemoryLine ('-' :: ' ' :: '[' :: 'I' :: 'D' :: ':' :: ' ' :: (ds ++ ']' :: tail))
      = some ⟨parseDigits ds, trim (tail.dropWhile isJsWs)⟩ := by
  obtain ⟨d, ds2, rfl⟩ := List.exists_cons_of_ne_nil hne
  have hws : ∀ x ∈ d :: ds2, isJsWs x = false := fun x hx => isDigit_not_ws x (hdig x hx)
  have htw := takeWhile_all_append Char.isDigit (d :: ds2) ']' tail hdig (by decide)
  simp only [matchMemoryLine]
  have h0 : List.dropWhile isJsWs
      (' ' :: '[' :: 'I' :: 'D' :: ':' :: ' ' :: (d :: ds2 ++ ']' :: tail))
      = '[' :: 'I' :: 'D' :: ':' :: (' ' :: (d :: ds2 ++ ']' :: tail)) := rfl
  have h1 : List.dropWhile isJsWs (' ' :: (d :: ds2 ++ ']' :: tail))
      = d :: ds2 ++ ']' :: tail := by
    rw [List.dropWhile_cons, show isJsWs ' ' = true from rfl, if_pos rfl,
      List.cons_append, List.dropWhile_cons, hws d (by simp)]
    simp
  rw [h0]
  simp only [h1, htw.1, htw.2, hcore]
  simp [hcore]

theorem matchMemoryLine_trim_format (m : Memory) (htr : trim m.fact = m.fact)
    (hcr : m.fact.contains '\r' = false) :
    matchMemoryLine (trim (formatMemoryLine m)) = some m := by
  rw [trim_formatMemoryLine m htr]
  have hspec := formatNat_spec m.id
  have htail : (if m.fact.isEmpty then ([] : List Char) else ' ' :: m.fact).dropWhile isJsWs
      = m.fact := by
    cases hfe : m.fact.isEmpty with
    | true =>
      rw [if_pos rfl]
      rw [List.isEmpty_iff.mp hfe]
      rfl
    | false =>
      simp only [Bool.false_eq_true, if_false]
      rw [List.dropWhile_cons, show isJsWs ' ' = true from rfl, if_pos rfl]
      cases hfact : m.fact with
      | nil =>
        rw [hfact] at hfe
        exact absurd hfe (by decide)
      | cons c t =>
        have hc : isJsWs c = false := trim_eq_self_head m.fact htr c t hfact
        rw [List.dropWhile_cons, hc]
        simp
  rw [matchMemoryLine_shape (formatNat m.id) _ hspec.1 hspec.2.1
    (by rw [htail]; exact hcr)]
  rw [htail, hspec.2.2, htr]

theorem splitNlAux_flatten :
    ∀ (ms : List Memory), (∀ m ∈ ms, m.fact.contains '\n' = false) →
      splitNlAux ((ms.map (fun m => formatMemoryLine m ++ ['\n'])).flatten) []
        = ms.map formatMemoryLine ++ [[]]
  | [], _ => by simp [splitNlAux]
  | a :: t, h => by
    rw [List.map_cons, List.flatten_cons]
    have hassoc : (formatMemoryLine a ++ ['\n'])
          ++ (t.map (fun m => formatMemoryLine m ++ ['\n'])).flatten
        = formatMemoryLine a
          ++ '\n' :: (t.map (fun m => formatMemoryLine m ++ ['\n'])).flatten := by
      simp [List.append_assoc]
    rw [hassoc, splitNlAux_append_nl _ _ [] (formatMemoryLine_no_nl a (h a (by simp)))]
    rw [splitNlAux_flatten t (fun m hm => h m (by simp [hm]))]
    simp

theorem splitNl_formatMemories (ms : List Memory)
    (hnl : ∀ m ∈ ms, m.fact.contains '\n' = false) :
    splitNl (formatMemories ms)
      = MEMORY_SECTION_HEADER :: [] :: (ms.map formatMemoryLine ++ [[]]) := by
  rw [formatMemories, splitNl]
  have hassoc : MEMORY_SECTION_HEADER ++ str "\n\n"
        ++ (ms.map (fun m => formatMemoryLine m ++ ['\n'])).flatten
      = MEMORY_SECTION_HEADER
        ++ '\n' :: '\n' :: (ms.map (fun m => formatMemoryLine m ++ ['\n'])).flatten := by
    simp [str, List.append_assoc]
  rw [hassoc]
  rw [splitNlAux_append_nl MEMORY_SECTION_HEADER _ [] (by decide)]
  rw [show splitNlAux ('\n' :: (ms.map (fun m => formatMemoryLine m ++ ['\n'])).flatten) []
      = [] :: splitNlAux ((ms.map (fun m => formatMemoryLine m ++ ['\n'])).flatten) [] from rfl]
  rw [splitNlAux_flatten ms hnl]
  simp

theorem parseMemories_formatMemories (ms : List Memory)
    (h : ∀ m ∈ ms, m.fact.contains '\n' = false ∧ m.fact.contains '\r' = false ∧
      trim m.fact = m.fact) :
    parseMemories (formatMemories ms) = ms := by
  rw [parseMemories, splitNl_formatMemories ms (fun m hm => (h m hm).1)]
  rw [List.filterMap_cons, List.filterMap_cons]
  simp only [show matchMemoryLine (trim MEMORY_SECTION_HEADER) = none from by decide,
    show matchMemoryLine (trim ([] : List Char)) = none from by decide]
  rw [List.filterMap_append]
  rw [List.filterMap_map]
  have hmap : ∀ (l : List Memory), (∀ m ∈ l, m.fact.contains '\n' = false ∧
        m.fact.contains '\r' = false ∧ trim m.fact = m.fact) →
      l.filterMap ((fun line => matchMemoryLine (trim line)) ∘ formatMemoryLine) = l := by
    intro l
    induction l with
    | nil => intro _; rfl
    | cons a t ih =>
      intro hl
      rw [List.filterMap_cons_some
        (show ((fun line => matchMemoryLine (trim line)) ∘ formatMemoryLine) a = some a from
          matchMemoryLine_trim_format a (hl a (by simp)).2.2 (hl a (by simp)).2.1)]
      rw [ih (fun m hm => hl m (by simp [hm]))]
  rw [hmap ms h]
  simp [show matchMemoryLine (trim ([] : List Char)) = none from by decide]

/-- C7: for every store whose facts are single-line (no LF, and no CR —
the system's own serializer never emits either, since saved facts pass
through `normalizeFact`) and trimmed, parsing the formatted file
reproduces the records exactly, and therefore
`format(parse(content)) = content` for every `content` produced by
`formatMemories` on such a store. -/
theorem C7_format_parse_roundtrip (ms : List Memory)
    (h : ∀ m ∈ ms, m.fact.contains '\n' = false ∧ m.fact.contains '\r' = false ∧
      trim m.fact = m.fact) :
    parseMemories (formatMemories ms) = ms ∧
    formatMemories (parseMemories (formatMemories ms)) = formatMemories ms := by
  have hp := parseMemories_formatMemories ms h
  exact ⟨hp, by rw [hp]⟩

theorem C7_format_parse_roundtrip_witness :
    formatMemories (parseMemories
        (formatMemories [⟨1, str "first fact"⟩, ⟨5, str "fifth fact"⟩]))
      = formatMemories [⟨1, str "first fact"⟩, ⟨5, str "fifth fact"⟩] :=
  (C7_format_parse_roundtrip [⟨1, str "first fact"⟩, ⟨5, str "fifth fact"⟩]
    (by decide)).2

end GeminiCli
